import Mathlib

/-!
# Verification of the ClawdNet SDK webhook signature routine

A shallow embedding of `verifyWebhookSignature` from `src/index.ts` of the
`clawdnet-sdk` repository, together with proofs about the claims of its
specification.

Modelling choices:
* JavaScript strings are modelled as `List Char` (sequences of Unicode
  scalar values); `Buffer.from` is modelled by UTF-8 encoding to `List Nat`
  (byte values).
* JavaScript numbers are modelled by `Int` where the source manipulates
  integers (`parseInt` results, `Math.floor(Date.now() / 1000)`,
  `toleranceSeconds`); this is exact for the integer-safe range of doubles.
  `parseInt` returning `NaN` is modelled by `Option Int` returning `none`,
  and the source's comparison `Math.abs(now - NaN) > tol` (which is false
  in JavaScript for every `tol`) is modelled faithfully in the `none` case.
* Node's `crypto.timingSafeEqual(a, b)` throws `ERR_CRYPTO_TIMING_SAFE_EQUAL_LENGTH`
  when the two buffers have different byte lengths, and otherwise returns
  whether they are equal; the possibility of the throw is modelled by
  `Except String Bool`.
* `crypto.createHmac('sha256', secret).update(msg).digest('hex')` is modelled
  by a full executable implementation of SHA-256 (FIPS 180-4) and HMAC
  (RFC 2104) over byte lists, rendered in lowercase hexadecimal.
-/

/-! ## JavaScript string primitives -/

/-- JavaScript `s.startsWith(pre)` on character lists. -/
def jsStartsWith (pre s : List Char) : Bool :=
  match pre, s with
  | [], _ => true
  | _ :: _, [] => false
  | p :: ps, c :: cs => p = c && jsStartsWith ps cs

/-- JavaScript `signature.split(',')`: splits at every comma; the result is
always a nonempty list, and `"".split(',')` is `[ "" ]`. -/
def splitComma : List Char → List (List Char)
  | [] => [[]]
  | c :: cs =>
    if c = ',' then [] :: splitComma cs
    else
      match splitComma cs with
      | [] => [[c]]
      | f :: rest => (c :: f) :: rest

/-- Joining fields with `','`, the left inverse of `splitComma` on
comma-free fields. -/
def joinComma : List (List Char) → List Char
  | [] => []
  | [f] => f
  | f :: rest => f ++ ',' :: joinComma rest

/-- The ECMAScript `StrWhiteSpaceChar` set (WhiteSpace ∪ LineTerminator),
skipped by `parseInt` before parsing. -/
def isJsWhitespace (c : Char) : Bool :=
  c.toNat ∈ [9, 10, 11, 12, 13, 32, 160, 5760, 8192, 8193, 8194, 8195,
    8196, 8197, 8198, 8199, 8200, 8201, 8202, 8232, 8233, 8239, 8287,
    12288, 65279]

/-- Decimal digit test, `'0' ≤ c ≤ '9'`. -/
def isDecDigit (c : Char) : Bool :=
  48 ≤ c.toNat && c.toNat ≤ 57

/-- The maximal prefix of decimal digits of a string. -/
def leadingDigits : List Char → List Char
  | [] => []
  | c :: cs => if isDecDigit c then c :: leadingDigits cs else []

/-- The numeric value of a string of decimal digits (most significant
first). -/
def digitsToNat (l : List Char) : Nat :=
  l.foldl (fun a c => 10 * a + (c.toNat - 48)) 0

/-- JavaScript `parseInt(s, 10)`: skip leading whitespace, read an optional
sign, then the maximal prefix of decimal digits; `NaN` (here `none`) when
that prefix is empty. -/
def parseIntB10 (s : List Char) : Option Int :=
  match s.dropWhile isJsWhitespace with
  | '-' :: rest =>
    if leadingDigits rest = [] then none
    else some (-(digitsToNat (leadingDigits rest) : Int))
  | '+' :: rest =>
    if leadingDigits rest = [] then none
    else some ((digitsToNat (leadingDigits rest) : Int))
  | s2 =>
    if leadingDigits s2 = [] then none
    else some ((digitsToNat (leadingDigits s2) : Int))

/-- The decimal digit character for `n < 10`. -/
def decDigitChar (n : Nat) : Char :=
  match n with
  | 0 => '0' | 1 => '1' | 2 => '2' | 3 => '3' | 4 => '4'
  | 5 => '5' | 6 => '6' | 7 => '7' | 8 => '8' | _ => '9'

/-- The decimal rendering of a natural number (as JavaScript renders a
non-negative integer into a template string). -/
def natToDecimal (n : Nat) : List Char :=
  if _h : n < 10 then [decDigitChar n]
  else natToDecimal (n / 10) ++ [decDigitChar (n % 10)]
  termination_by n
  decreasing_by
    exact Nat.div_lt_self (by omega) (by omega)

/-! ## Bytes: UTF-8 encoding (`Buffer.from` on a JavaScript string) -/

/-- UTF-8 encoding of a single Unicode scalar value. -/
def utf8EncodeChar (c : Char) : List Nat :=
  let n := c.toNat
  if n < 128 then [n]
  else if n < 2048 then
    [192 + n / 64, 128 + n % 64]
  else if n < 65536 then
    [224 + n / 4096, 128 + (n / 64) % 64, 128 + n % 64]
  else
    [240 + n / 262144, 128 + (n / 4096) % 64, 128 + (n / 64) % 64,
      128 + n % 64]

/-- `Buffer.from(s)`: the UTF-8 bytes of a string. -/
def utf8Encode (s : List Char) : List Nat :=
  s.flatMap utf8EncodeChar

/-! ## SHA-256 (FIPS 180-4), executable, over byte lists -/

/-- Truncation to a 32-bit word. -/
def m32 (x : Nat) : Nat := x % 4294967296

/-- Right rotation of a 32-bit word. -/
def rotr32 (n x : Nat) : Nat :=
  m32 ((x >>> n) ||| (x <<< (32 - n)))

/-- Bitwise complement of a 32-bit word. -/
def not32 (x : Nat) : Nat := x ^^^ 4294967295

/-- SHA-256 round constants. -/
def sha256K : List Nat :=
  [1116352408, 1899447441, 3049323471, 3921009573, 961987163, 1508970993,
   2453635748, 2870763221, 3624381080, 310598401, 607225278, 1426881987,
   1925078388, 2162078206, 2614888103, 3248222580, 3835390401, 4022224774,
   264347078, 604807628, 770255983, 1249150122, 1555081692, 1996064986,
   2554220882, 2821834349, 2952996808, 3210313671, 3336571891, 3584528711,
   113926993, 338241895, 666307205, 773529912, 1294757372, 1396182291,
   1695183700, 1986661051, 2177026350, 2456956037, 2730485921, 2820302411,
   3259730800, 3345764771, 3516065817, 3600352804, 4094571909, 275423344,
   430227734, 506948616, 659060556, 883997877, 958139571, 1322822218,
   1537002063, 1747873779, 1955562222, 2024104815, 2227730452, 2361852424,
   2428436474, 2756734187, 3204031479, 3329325298]

/-- The SHA-256 working state: eight 32-bit words. -/
structure Sha256State where
  a : Nat
  b : Nat
  c : Nat
  d : Nat
  e : Nat
  f : Nat
  g : Nat
  hh : Nat
deriving Repr, DecidableEq

/-- SHA-256 initial hash value. -/
def sha256H0 : Sha256State :=
  ⟨1779033703, 3144134277, 1013904242, 2773480762,
   1359893119, 2600822924, 528734635, 1541459225⟩

/-- Message padding: append `0x80`, zeros to 56 mod 64, then the bit
length as 8 big-endian bytes. -/
def sha256Pad (msg : List Nat) : List Nat :=
  let len := msg.length
  let bitLen := 8 * len
  let zeros := (119 - len % 64) % 64
  msg ++ [128] ++ List.replicate zeros 0 ++
    [bitLen >>> 56 % 256, bitLen >>> 48 % 256, bitLen >>> 40 % 256,
     bitLen >>> 32 % 256, bitLen >>> 24 % 256, bitLen >>> 16 % 256,
     bitLen >>> 8 % 256, bitLen % 256]

/-- Split a padded message into 64-byte blocks. -/
def chunk64 : List Nat → List (List Nat)
  | [] => []
  | c :: cs => (c :: cs).take 64 :: chunk64 ((c :: cs).drop 64)
  termination_by l => l.length
  decreasing_by
    simp [List.length_drop]
    omega

/-- The sixteen big-endian 32-bit words of a 64-byte block. -/
def blockWords (block : List Nat) : List Nat :=
  (List.range 16).map fun i =>
    (block.getD (4 * i) 0) <<< 24 + (block.getD (4 * i + 1) 0) <<< 16 +
      (block.getD (4 * i + 2) 0) <<< 8 + block.getD (4 * i + 3) 0

/-- Extend sixteen words to the 64-word message schedule. -/
def sha256Schedule (w16 : List Nat) : List Nat :=
  (List.range 48).foldl
    (fun w t =>
      let s0 := (rotr32 7 (w.getD (t + 1) 0)) ^^^
        (rotr32 18 (w.getD (t + 1) 0)) ^^^ ((w.getD (t + 1) 0) >>> 3)
      let s1 := (rotr32 17 (w.getD (t + 14) 0)) ^^^
        (rotr32 19 (w.getD (t + 14) 0)) ^^^ ((w.getD (t + 14) 0) >>> 10)
      w ++ [m32 (w.getD t 0 + s0 + w.getD (t + 9) 0 + s1)])
    w16

/-- One SHA-256 compression round. -/
def sha256Round (s : Sha256State) (kw : Nat × Nat) : Sha256State :=
  let bigS1 := (rotr32 6 s.e) ^^^ (rotr32 11 s.e) ^^^ (rotr32 25 s.e)
  let ch := (s.e &&& s.f) ^^^ (not32 s.e &&& s.g)
  let temp1 := m32 (s.hh + bigS1 + ch + kw.1 + kw.2)
  let bigS0 := (rotr32 2 s.a) ^^^ (rotr32 13 s.a) ^^^ (rotr32 22 s.a)
  let maj := (s.a &&& s.b) ^^^ (s.a &&& s.c) ^^^ (s.b &&& s.c)
  let temp2 := m32 (bigS0 + maj)
  ⟨m32 (temp1 + temp2), s.a, s.b, s.c, m32 (s.d + temp1), s.e, s.f, s.g⟩

/-- Process one 64-byte block. -/
def sha256Block (h0 : Sha256State) (block : List Nat) : Sha256State :=
  let w := sha256Schedule (blockWords block)
  let s := (sha256K.zip w).foldl sha256Round h0
  ⟨m32 (h0.a + s.a), m32 (h0.b + s.b), m32 (h0.c + s.c), m32 (h0.d + s.d),
   m32 (h0.e + s.e), m32 (h0.f + s.f), m32 (h0.g + s.g), m32 (h0.hh + s.hh)⟩

/-- The four big-endian bytes of a 32-bit word. -/
def wordBytes (w : Nat) : List Nat :=
  [w >>> 24 % 256, w >>> 16 % 256, w >>> 8 % 256, w % 256]

/-- SHA-256 of a byte list: 32 bytes. -/
def sha256 (msg : List Nat) : List Nat :=
  let s := (chunk64 (sha256Pad msg)).foldl sha256Block sha256H0
  wordBytes s.a ++ wordBytes s.b ++ wordBytes s.c ++ wordBytes s.d ++
    wordBytes s.e ++ wordBytes s.f ++ wordBytes s.g ++ wordBytes s.hh

/-- HMAC-SHA256 (RFC 2104) over byte lists, 32 bytes of output. -/
def hmacSha256 (key msg : List Nat) : List Nat :=
  let k0 := if 64 < key.length then sha256 key else key
  let k := k0 ++ List.replicate (64 - k0.length) 0
  let ipadKey := k.map fun b => b ^^^ 54
  let opadKey := k.map fun b => b ^^^ 92
  sha256 (opadKey ++ sha256 (ipadKey ++ msg))

/-- The lowercase hexadecimal digit for `n < 16`. -/
def hexDigitChar (n : Nat) : Char :=
  match n with
  | 0 => '0' | 1 => '1' | 2 => '2' | 3 => '3' | 4 => '4' | 5 => '5'
  | 6 => '6' | 7 => '7' | 8 => '8' | 9 => '9' | 10 => 'a' | 11 => 'b'
  | 12 => 'c' | 13 => 'd' | 14 => 'e' | _ => 'f'

/-- The two lowercase hex characters of a byte. -/
def byteToHex (b : Nat) : List Char :=
  [hexDigitChar (b / 16), hexDigitChar (b % 16)]

/-- Lowercase hexadecimal rendering of a byte list (`.digest('hex')`). -/
def bytesToHex (l : List Nat) : List Char :=
  l.flatMap byteToHex

/-- `crypto.createHmac('sha256', secret).update(msg).digest('hex')` on
JavaScript strings: UTF-8 encode both, HMAC-SHA256, lowercase hex. -/
def hmacSha256Hex (secret msg : List Char) : List Char :=
  bytesToHex (hmacSha256 (utf8Encode secret) (utf8Encode msg))

/-! ## The verifier -/

/-- Node `crypto.timingSafeEqual(a, b)` on byte buffers: throws
`ERR_CRYPTO_TIMING_SAFE_EQUAL_LENGTH` when the byte lengths differ,
otherwise reports equality (in constant time, a property outside this
functional model). -/
def timingSafeEqual (a b : List Nat) : Except String Bool :=
  if a.length = b.length then Except.ok (decide (a = b))
  else Except.error "ERR_CRYPTO_TIMING_SAFE_EQUAL_LENGTH"

/-- `verifyWebhookSignature(payload, signature, secret, toleranceSeconds)`
from `src/index.ts`, with the clock read `Math.floor(Date.now() / 1000)`
passed explicitly as `now`.  The result is `Except.ok` of the returned
boolean, or `Except.error` when the call throws. -/
def verifyWebhookSignature (payload signature secret : List Char)
    (toleranceSeconds : Int) (now : Int) : Except String Bool :=
  let parts := splitComma signature
  let timestamp :=
    (parts.find? fun p => jsStartsWith [ 't', '='] p).map (List.drop 2)
  let sig :=
    (parts.find? fun p => jsStartsWith [ 'v', '1', '='] p).map (List.drop 3)
  match timestamp, sig with
  | some t, some s =>
    if t = [] ∨ s = [] then Except.ok false
    else
      let windowExceeded :=
        match parseIntB10 t with
        | some ts => decide (toleranceSeconds < ((now - ts).natAbs : Int))
        | none => false
      if windowExceeded then Except.ok false
      else
        let expected := hmacSha256Hex secret (t ++ '.' :: payload)
        timingSafeEqual (utf8Encode s) (utf8Encode expected)
  | _, _ => Except.ok false

/-! ## Shape facts about the digest -/

/-- The lowercase hexadecimal alphabet. -/
def hexCharset : List Char :=
  [ '0', '1', '2', '3', '4', '5', '6', '7'] ++
    [ '8', '9', 'a', 'b', 'c', 'd', 'e', 'f']

theorem hexDigitChar_mem (n : Nat) : hexDigitChar n ∈ hexCharset := by
  unfold hexDigitChar
  split <;> decide

theorem hexCharset_spec :
    ∀ c ∈ hexCharset, c ≠ ',' ∧ c.toNat < 128 := by decide

theorem sha256_length (msg : List Nat) : (sha256 msg).length = 32 := by
  simp [sha256, wordBytes]

theorem hmacSha256_length (key msg : List Nat) :
    (hmacSha256 key msg).length = 32 := by
  unfold hmacSha256
  exact sha256_length _

theorem bytesToHex_length (l : List Nat) :
    (bytesToHex l).length = 2 * l.length := by
  induction l with
  | nil => rfl
  | cons b t ih =>
    simp only [bytesToHex, List.flatMap_cons] at *
    simp [byteToHex, ih]
    omega

theorem bytesToHex_mem (l : List Nat) :
    ∀ c ∈ bytesToHex l, c ∈ hexCharset := by
  intro c hc
  simp only [bytesToHex, List.mem_flatMap] at hc
  obtain ⟨b, _, hb⟩ := hc
  simp only [byteToHex, List.mem_cons, List.not_mem_nil, or_false] at hb
  rcases hb with h | h <;> subst h <;> exact hexDigitChar_mem _

theorem hmacSha256Hex_length (secret msg : List Char) :
    (hmacSha256Hex secret msg).length = 64 := by
  unfold hmacSha256Hex
  rw [bytesToHex_length, hmacSha256_length]

theorem hmacSha256Hex_mem (secret msg : List Char) :
    ∀ c ∈ hmacSha256Hex secret msg, c ∈ hexCharset := by
  unfold hmacSha256Hex
  exact bytesToHex_mem _

theorem hmacSha256Hex_ne_nil (secret msg : List Char) :
    hmacSha256Hex secret msg ≠ [] := by
  intro e
  have h := hmacSha256Hex_length secret msg
  rw [e] at h
  simp at h

theorem comma_notMem_hmacSha256Hex (secret msg : List Char) :
    ',' ∉ hmacSha256Hex secret msg := by
  intro h
  exact (hexCharset_spec _ (hmacSha256Hex_mem secret msg _ h)).1 rfl

theorem utf8Encode_length_ascii (l : List Char) (h : ∀ c ∈ l, c.toNat < 128) :
    (utf8Encode l).length = l.length := by
  induction l with
  | nil => rfl
  | cons c t ih =>
    have hc : c.toNat < 128 := h c (by simp)
    simp only [utf8Encode, List.flatMap_cons] at *
    rw [List.length_append, ih fun d hd => h d (by simp [hd])]
    simp [utf8EncodeChar, hc]
    omega

theorem utf8Encode_hmacSha256Hex_length (secret msg : List Char) :
    (utf8Encode (hmacSha256Hex secret msg)).length = 64 := by
  rw [utf8Encode_length_ascii, hmacSha256Hex_length]
  intro c hc
  exact (hexCharset_spec _ (hmacSha256Hex_mem secret msg _ hc)).2

/-! ## Splitting and joining comma-separated fields -/

theorem splitComma_no_comma (s : List Char) (h : ',' ∉ s) :
    splitComma s = [s] := by
  induction s with
  | nil => rfl
  | cons c cs ih =>
    have hc : ¬(c = ',') := fun e => h (by simp [e])
    have hcs : ',' ∉ cs := fun m => h (List.mem_cons_of_mem _ m)
    simp only [splitComma, if_neg hc, ih hcs]

theorem splitComma_append (xs ys : List Char) (h : ',' ∉ xs) :
    splitComma (xs ++ ',' :: ys) = xs :: splitComma ys := by
  induction xs with
  | nil => simp [splitComma]
  | cons c cs ih =>
    have hc : ¬(c = ',') := fun e => h (by simp [e])
    have hcs : ',' ∉ cs := fun m => h (List.mem_cons_of_mem _ m)
    simp only [List.cons_append, splitComma, if_neg hc, List.append_eq,
      ih hcs]

theorem splitComma_joinComma (l : List (List Char)) (hne : l ≠ [])
    (h : ∀ f ∈ l, ',' ∉ f) : splitComma (joinComma l) = l := by
  induction l with
  | nil => exact absurd rfl hne
  | cons f rest ih =>
    cases rest with
    | nil => exact splitComma_no_comma f (h f (by simp))
    | cons g t =>
      have hj : joinComma (f :: g :: t) = f ++ ',' :: joinComma (g :: t) :=
        rfl
      rw [hj, splitComma_append _ _ (h f (by simp)),
        ih (by simp) fun d hd => h d (List.mem_cons_of_mem _ hd)]

/-! ## Digit strings and `parseInt` -/

theorem isDecDigit_props (c : Char) (h : isDecDigit c = true) :
    isJsWhitespace c = false ∧ c ≠ '-' ∧ c ≠ '+' ∧ c ≠ ',' := by
  simp only [isDecDigit, Bool.and_eq_true, decide_eq_true_eq] at h
  refine ⟨?_, ?_, ?_, ?_⟩
  · simp only [isJsWhitespace, List.mem_cons, List.not_mem_nil, or_false,
      decide_eq_false_iff_not]
    omega
  · intro e
    have h45 : c.toNat = 45 := by rw [e]; rfl
    omega
  · intro e
    have h43 : c.toNat = 43 := by rw [e]; rfl
    omega
  · intro e
    have h44 : c.toNat = 44 := by rw [e]; rfl
    omega

theorem leadingDigits_all (s : List Char)
    (h : ∀ c ∈ s, isDecDigit c = true) : leadingDigits s = s := by
  induction s with
  | nil => rfl
  | cons c cs ih =>
    simp [leadingDigits, h c (by simp),
      ih fun d hd => h d (by simp [hd])]

theorem parseIntB10_digits (s : List Char) (hne : s ≠ [])
    (h : ∀ c ∈ s, isDecDigit c = true) :
    parseIntB10 s = some ((digitsToNat s : Nat) : Int) := by
  cases s with
  | nil => exact absurd rfl hne
  | cons c cs =>
    obtain ⟨hws, hminus, hplus, _⟩ := isDecDigit_props c (h c (by simp))
    unfold parseIntB10
    rw [List.dropWhile_cons, if_neg (by simp [hws])]
    split
    · rename_i rest heq
      rw [List.cons.injEq] at heq
      exact absurd heq.1 hminus
    · rename_i rest heq
      rw [List.cons.injEq] at heq
      exact absurd heq.1 hplus
    · rw [leadingDigits_all _ h, if_neg (by simp)]

theorem digitsToNat_append (l : List Char) (c : Char) :
    digitsToNat (l ++ [c]) = 10 * digitsToNat l + (c.toNat - 48) := by
  simp [digitsToNat, List.foldl_append]

theorem decDigitChar_lt10 (k : Nat) (h : k < 10) :
    (decDigitChar k).toNat = 48 + k ∧ isDecDigit (decDigitChar k) = true := by
  interval_cases k <;> exact ⟨rfl, rfl⟩

theorem natToDecimal_spec (n : Nat) :
    natToDecimal n ≠ [] ∧ (∀ c ∈ natToDecimal n, isDecDigit c = true) ∧
      digitsToNat (natToDecimal n) = n := by
  induction n using Nat.strong_induction_on with
  | _ n ih =>
    by_cases h : n < 10
    · rw [natToDecimal, dif_pos h]
      refine ⟨by simp, ?_, ?_⟩
      · intro c hc
        simp only [List.mem_singleton] at hc
        subst hc
        exact (decDigitChar_lt10 n h).2
      · simp only [digitsToNat, List.foldl_cons, List.foldl_nil]
        have := (decDigitChar_lt10 n h).1
        omega
    · rw [natToDecimal, dif_neg h]
      obtain ⟨ih1, ih2, ih3⟩ := ih (n / 10) (Nat.div_lt_self (by omega)
        (by omega))
      have hmod := decDigitChar_lt10 (n % 10) (Nat.mod_lt _ (by omega))
      refine ⟨by simp, ?_, ?_⟩
      · intro c hc
        rcases List.mem_append.mp hc with h1 | h1
        · exact ih2 c h1
        · simp only [List.mem_singleton] at h1
          subst h1
          exact hmod.2
      · rw [digitsToNat_append, ih3, hmod.1]
        omega

theorem parseIntB10_natToDecimal (n : Nat) :
    parseIntB10 (natToDecimal n) = some ((n : Nat) : Int) := by
  obtain ⟨h1, h2, h3⟩ := natToDecimal_spec n
  rw [parseIntB10_digits _ h1 h2, h3]

theorem comma_notMem_natToDecimal (n : Nat) : ',' ∉ natToDecimal n := by
  intro hmem
  exact (isDecDigit_props _ ((natToDecimal_spec n).2.1 _ hmem)).2.2.2 rfl

/-! ## Characterizing the verifier on well-formed two-field headers -/

theorem jsStartsWith_prepend (pre r : List Char) :
    jsStartsWith pre (pre ++ r) = true := by
  induction pre with
  | nil => rfl
  | cons c cs ih => simp [jsStartsWith, ih]

/-- On a header of the exact shape `t=<t>,v1=<s>` (with `t`, `s` free of
commas and nonempty), the verifier reduces to the window check on
`parseIntB10 t` followed by the timing-safe comparison of `s` with the
hex HMAC of `"<t>.<payload>"`. -/
theorem verify_header_tv (payload secret t s : List Char) (tol now : Int)
    (htc : ',' ∉ t) (hsc : ',' ∉ s) (htne : t ≠ []) (hsne : s ≠ []) :
    verifyWebhookSignature payload
        ([ 't', '='] ++ t ++ ',' :: ([ 'v', '1', '='] ++ s)) secret tol
        now =
      if (match parseIntB10 t with
          | some ts => decide (tol < ((now - ts).natAbs : Int))
          | none => false) then Except.ok false
      else
        timingSafeEqual (utf8Encode s)
          (utf8Encode (hmacSha256Hex secret (t ++ '.' :: payload))) := by
  have hxs : ',' ∉ [ 't', '='] ++ t := by
    intro hm
    rcases List.mem_append.mp hm with hm | hm
    · exact absurd hm (by decide)
    · exact htc hm
  have hys : ',' ∉ [ 'v', '1', '='] ++ s := by
    intro hm
    rcases List.mem_append.mp hm with hm | hm
    · exact absurd hm (by decide)
    · exact hsc hm
  have hsplit : splitComma ([ 't', '='] ++ t ++ ',' ::
      ([ 'v', '1', '='] ++ s)) =
      [[ 't', '='] ++ t, [ 'v', '1', '='] ++ s] := by
    rw [splitComma_append _ _ hxs, splitComma_no_comma _ hys]
  have hf1 : List.find? (fun p => jsStartsWith [ 't', '='] p)
      [[ 't', '='] ++ t, [ 'v', '1', '='] ++ s] =
      some ([ 't', '='] ++ t) :=
    List.find?_cons_of_pos _ (jsStartsWith_prepend [ 't', '='] t)
  have hf2 : List.find? (fun p => jsStartsWith [ 'v', '1', '='] p)
      [[ 't', '='] ++ t, [ 'v', '1', '='] ++ s] =
      some ([ 'v', '1', '='] ++ s) := by
    rw [List.find?_cons_of_neg _ (by simp [jsStartsWith])]
    exact List.find?_cons_of_pos _ (jsStartsWith_prepend [ 'v', '1', '='] s)
  have hd1 : List.drop 2 ([ 't', '='] ++ t) = t := rfl
  have hd2 : List.drop 3 ([ 'v', '1', '='] ++ s) = s := rfl
  simp only [verifyWebhookSignature, hsplit, hf1, hf2, Option.map_some',
    hd1, hd2]
  rw [if_neg (not_or.mpr ⟨htne, hsne⟩)]

theorem timingSafeEqual_self (a : List Nat) :
    timingSafeEqual a a = Except.ok true := by
  simp [timingSafeEqual]

theorem verify_header_tv_inWindow (payload secret t s : List Char)
    (tol now ts : Int)
    (htc : ',' ∉ t) (hsc : ',' ∉ s) (htne : t ≠ []) (hsne : s ≠ [])
    (hparse : parseIntB10 t = some ts)
    (hwin : ¬ tol < ((now - ts).natAbs : Int)) :
    verifyWebhookSignature payload
        ([ 't', '='] ++ t ++ ',' :: ([ 'v', '1', '='] ++ s)) secret tol
        now =
      timingSafeEqual (utf8Encode s)
        (utf8Encode (hmacSha256Hex secret (t ++ '.' :: payload))) := by
  rw [verify_header_tv payload secret t s tol now htc hsc htne hsne,
    hparse]
  simp only [decide_eq_false hwin, Bool.false_eq_true, if_false]

theorem verify_header_tv_outWindow (payload secret t s : List Char)
    (tol now ts : Int)
    (htc : ',' ∉ t) (hsc : ',' ∉ s) (htne : t ≠ []) (hsne : s ≠ [])
    (hparse : parseIntB10 t = some ts)
    (hwin : tol < ((now - ts).natAbs : Int)) :
    verifyWebhookSignature payload
        ([ 't', '='] ++ t ++ ',' :: ([ 'v', '1', '='] ++ s)) secret tol
        now = Except.ok false := by
  rw [verify_header_tv payload secret t s tol now htc hsc htne hsne,
    hparse]
  simp only [decide_eq_true hwin, if_true]

theorem verify_header_tv_nan (payload secret t s : List Char)
    (tol now : Int)
    (htc : ',' ∉ t) (hsc : ',' ∉ s) (htne : t ≠ []) (hsne : s ≠ [])
    (hparse : parseIntB10 t = none) :
    verifyWebhookSignature payload
        ([ 't', '='] ++ t ++ ',' :: ([ 'v', '1', '='] ++ s)) secret tol
        now =
      timingSafeEqual (utf8Encode s)
        (utf8Encode (hmacSha256Hex secret (t ++ '.' :: payload))) := by
  rw [verify_header_tv payload secret t s tol now htc hsc htne hsne,
    hparse]
  rfl

/-! ## Correctly constructed signature headers -/

/-- The signature header a correct sender constructs for `payload` at Unix
time `ts`: `t=<ts>,v1=<lowercase hex HMAC-SHA256 of "<ts>.<payload>">`. -/
def signedHeader (secret payload : List Char) (ts : Nat) : List Char :=
  [ 't', '='] ++ natToDecimal ts ++ ',' :: ([ 'v', '1', '='] ++
    hmacSha256Hex secret (natToDecimal ts ++ '.' :: payload))

/-- On a correctly constructed header, the verifier is exactly the
replay-window test. -/
theorem verify_signedHeader (payload secret : List Char) (ts : Nat)
    (tol now : Int) :
    verifyWebhookSignature payload (signedHeader secret payload ts) secret
        tol now =
      if tol < ((now - (ts : Int)).natAbs : Int) then Except.ok false
      else Except.ok true := by
  obtain ⟨htne, _, _⟩ := natToDecimal_spec ts
  have htc := comma_notMem_natToDecimal ts
  have hsc := comma_notMem_hmacSha256Hex secret
    (natToDecimal ts ++ '.' :: payload)
  have hsne := hmacSha256Hex_ne_nil secret
    (natToDecimal ts ++ '.' :: payload)
  unfold signedHeader
  by_cases hwin : tol < ((now - (ts : Int)).natAbs : Int)
  · rw [verify_header_tv_outWindow payload secret _ _ tol now (ts : Int)
      htc hsc htne hsne (parseIntB10_natToDecimal ts) hwin, if_pos hwin]
  · rw [verify_header_tv_inWindow payload secret _ _ tol now (ts : Int)
      htc hsc htne hsne (parseIntB10_natToDecimal ts) hwin, if_neg hwin,
      timingSafeEqual_self]

/-! ## Claim theorems -/

/-- C1: the claim says `verifyWebhookSignature` never raises a fault and
treats a v1 field of the wrong length as definitively unequal, returning
`false`.  The code instead calls Node's `crypto.timingSafeEqual`, which
throws `ERR_CRYPTO_TIMING_SAFE_EQUAL_LENGTH` on buffers of different byte
lengths: with a well-formed in-window header whose v1 field is the single
character `a` (length 1, while the computed hex digest has length 64), the
call throws instead of returning `false`. -/
theorem C1_length_mismatch_throws :
    verifyWebhookSignature [ 'x'] [ 't', '=', '0', ',', 'v', '1', '=', 'a']
        [ 's'] 300 0 =
      Except.error "ERR_CRYPTO_TIMING_SAFE_EQUAL_LENGTH" := by
  have hshape : ([ 't', '=', '0', ',', 'v', '1', '=', 'a'] : List Char) =
      [ 't', '='] ++ [ '0'] ++ ',' :: ([ 'v', '1', '='] ++ [ 'a']) := rfl
  rw [hshape, verify_header_tv_inWindow [ 'x'] [ 's'] [ '0'] [ 'a'] 300 0 0
    (by decide) (by decide) (by decide) (by decide) (by decide) (by decide)]
  unfold timingSafeEqual
  rw [if_neg]
  rw [utf8Encode_hmacSha256Hex_length]
  decide

/-- C2: the claim says a non-numeric `t=` field value (such as `abc`) is
a parse failure and the call returns `false` regardless of the digest.
In the code, `parseInt('abc', 10)` is `NaN`, `Math.abs(now - NaN) >
tolerance` is false, so the window check silently passes and the digest
comparison decides the result: with v1 equal to the HMAC over the literal
text `"abc.<payload>"`, the call returns `true`. -/
theorem C2_nan_timestamp_verifies :
    verifyWebhookSignature [ 'p']
        ([ 't', '='] ++ [ 'a', 'b', 'c'] ++ ',' :: ([ 'v', '1', '='] ++
          hmacSha256Hex [ 's'] ([ 'a', 'b', 'c'] ++ '.' :: [ 'p'])))
        [ 's'] 300 1700000000 = Except.ok true := by
  rw [verify_header_tv_nan [ 'p'] [ 's'] [ 'a', 'b', 'c'] _ 300 1700000000
    (by decide) (comma_notMem_hmacSha256Hex _ _) (by decide)
    (hmacSha256Hex_ne_nil _ _) (by decide)]
  exact timingSafeEqual_self _

/-- C3: the replay-window boundary is inclusive: with a correctly
constructed header for timestamp `ts`, a clock `now` with
`|now - ts| = toleranceSeconds` verifies `true`, while
`|now - ts| ≥ toleranceSeconds + 1` yields `false` even though the digest
is correct. -/
theorem C3_window_boundary_inclusive (payload secret : List Char)
    (ts : Nat) (tol now : Int) :
    ((((now - (ts : Int)).natAbs : Int) = tol →
        verifyWebhookSignature payload (signedHeader secret payload ts)
          secret tol now = Except.ok true) ∧
      (tol + 1 ≤ (((now - (ts : Int)).natAbs : Int)) →
        verifyWebhookSignature payload (signedHeader secret payload ts)
          secret tol now = Except.ok false)) := by
  constructor
  · intro h
    rw [verify_signedHeader, if_neg (by omega)]
  · intro h
    rw [verify_signedHeader, if_pos (by omega)]

theorem C3_window_boundary_inclusive_witness :
    (((((1300 : Int) - ((1000 : Nat) : Int)).natAbs : Int) = 300 ∧
        verifyWebhookSignature [ 'p'] (signedHeader [ 'k'] [ 'p'] 1000)
          [ 'k'] 300 1300 = Except.ok true) ∧
      ((300 : Int) + 1 ≤
          ((((1301 : Int) - ((1000 : Nat) : Int)).natAbs : Int)) ∧
        verifyWebhookSignature [ 'p'] (signedHeader [ 'k'] [ 'p'] 1000)
          [ 'k'] 300 1301 = Except.ok false)) :=
  ⟨⟨by decide,
    (C3_window_boundary_inclusive [ 'p'] [ 'k'] 1000 300 1300).1
      (by decide)⟩,
   ⟨by decide,
    (C3_window_boundary_inclusive [ 'p'] [ 'k'] 1000 300 1301).2
      (by decide)⟩⟩

/-- C4: for every payload and secret, a correctly constructed signature
header (`t` set to the verifier's current time `ts`, `v1` the lowercase
hex HMAC-SHA256 of `"<ts>.<payload>"` keyed by the secret) verifies
`true` with the clock at `ts` and any non-negative tolerance. -/
theorem C4_correctly_signed_verifies (payload secret : List Char)
    (ts : Nat) (tol : Int) (htol : 0 ≤ tol) :
    verifyWebhookSignature payload (signedHeader secret payload ts) secret
      tol (ts : Int) = Except.ok true := by
  rw [verify_signedHeader, if_neg (by omega)]

theorem C4_correctly_signed_verifies_witness :
    (0 : Int) ≤ 300 ∧
      verifyWebhookSignature [ 'x'] (signedHeader [ 's'] [ 'x'] 1700000000)
        [ 's'] 300 ((1700000000 : Nat) : Int) = Except.ok true :=
  ⟨by decide,
   C4_correctly_signed_verifies [ 'x'] [ 's'] 1700000000 300 (by decide)⟩

/-- Following the spec's words: "HMAC-SHA256 over the exact byte string
`"<timestamp-field-text>.<payload>"` (timestamp field as received,
literally concatenated with a single `.` and the payload — not the parsed
integer, not re-normalized), keyed by `secret`, rendered as lowercase
hexadecimal." -/
def specExpectedDigest (secret tfieldText payload : List Char) :
    List Char :=
  bytesToHex (hmacSha256 (utf8Encode secret)
    (utf8Encode (tfieldText ++ ([ '.'] ++ payload))))

/-- C5: on a header carrying timestamp field text `t` and signature field
`s`, the digest the verifier compares `s` against is exactly the
spec-modelled one — HMAC-SHA256 keyed by the secret over the raw field
text `t` (as received, not the parsed integer), a single dot, and the
payload — and that digest consists solely of lowercase hexadecimal
characters. -/
theorem C5_digest_over_raw_field_text (payload secret t s : List Char)
    (tol now : Int) (htc : ',' ∉ t) (hsc : ',' ∉ s) (htne : t ≠ [])
    (hsne : s ≠ []) :
    (verifyWebhookSignature payload
        ([ 't', '='] ++ t ++ ',' :: ([ 'v', '1', '='] ++ s)) secret tol
        now =
      if (match parseIntB10 t with
          | some ts => decide (tol < ((now - ts).natAbs : Int))
          | none => false) then Except.ok false
      else
        timingSafeEqual (utf8Encode s)
          (utf8Encode (specExpectedDigest secret t payload))) ∧
    (∀ c ∈ specExpectedDigest secret t payload, c ∈ hexCharset) := by
  constructor
  · rw [verify_header_tv payload secret t s tol now htc hsc htne hsne]
    rfl
  · exact fun c hc => bytesToHex_mem _ c hc

theorem C5_digest_over_raw_field_text_witness :
    (',' ∉ ([ '0', '7'] : List Char)) ∧ (',' ∉ ([ 'a'] : List Char)) ∧
      ([ '0', '7'] : List Char) ≠ [] ∧ ([ 'a'] : List Char) ≠ [] ∧
      ((verifyWebhookSignature [ 'p']
          ([ 't', '='] ++ [ '0', '7'] ++ ',' :: ([ 'v', '1', '='] ++
            [ 'a'])) [ 's'] 300 7 =
        if (match parseIntB10 [ '0', '7'] with
            | some ts => decide ((300 : Int) < (((7 : Int) - ts).natAbs :
                Int))
            | none => false) then Except.ok false
        else
          timingSafeEqual (utf8Encode [ 'a'])
            (utf8Encode (specExpectedDigest [ 's'] [ '0', '7'] [ 'p']))) ∧
      (∀ c ∈ specExpectedDigest [ 's'] [ '0', '7'] [ 'p'],
        c ∈ hexCharset)) :=
  ⟨by decide, by decide, by decide, by decide,
   C5_digest_over_raw_field_text [ 'p'] [ 's'] [ '0', '7'] [ 'a'] 300 7
     (by decide) (by decide) (by decide) (by decide)⟩

/-- C6: a signature header whose comma-separated fields contain none
beginning with `t=`, or none beginning with `v1=`, makes the verifier
return `false` (fail closed), for every payload, secret, tolerance and
clock. -/
theorem C6_missing_field_false (payload hdr secret : List Char)
    (tol now : Int)
    (hmiss :
      (∀ f ∈ splitComma hdr, jsStartsWith [ 't', '='] f = false) ∨
      (∀ f ∈ splitComma hdr, jsStartsWith [ 'v', '1', '='] f = false)) :
    verifyWebhookSignature payload hdr secret tol now = Except.ok false := by
  rcases hmiss with hm | hm
  · have hnone : List.find? (fun p => jsStartsWith [ 't', '='] p)
        (splitComma hdr) = none :=
      List.find?_eq_none.mpr fun x hx => by simp [hm x hx]
    simp only [verifyWebhookSignature, hnone, Option.map_none']
  · have hnone : List.find? (fun p => jsStartsWith [ 'v', '1', '='] p)
        (splitComma hdr) = none :=
      List.find?_eq_none.mpr fun x hx => by simp [hm x hx]
    simp only [verifyWebhookSignature, hnone, Option.map_none']
    cases ht : (List.find? (fun p => jsStartsWith [ 't', '='] p)
        (splitComma hdr)).map (List.drop 2) <;> rfl

theorem C6_missing_field_false_witness :
    ((∀ f ∈ splitComma [ 'v', '1', '=', 'a'],
        jsStartsWith [ 't', '='] f = false) ∨
      (∀ f ∈ splitComma [ 'v', '1', '=', 'a'],
        jsStartsWith [ 'v', '1', '='] f = false)) ∧
      verifyWebhookSignature [ 'p'] [ 'v', '1', '=', 'a'] [ 's'] 300 0 =
        Except.ok false :=
  ⟨Or.inl (by decide),
   C6_missing_field_false [ 'p'] [ 'v', '1', '=', 'a'] [ 's'] 300 0
     (Or.inl (by decide))⟩

/-! ## Field order and duplicate fields -/

theorem find?_perm_of_countP_le_one {α : Type} (p : α → Bool)
    {l l' : List α} (hp : List.Perm l l') (hc : l.countP p ≤ 1) :
    l.find? p = l'.find? p := by
  rw [← List.filter_head?, ← List.filter_head?]
  have hf := hp.filter p
  rw [List.countP_eq_length_filter] at hc
  cases hfl : l.filter p with
  | nil =>
    rw [hfl] at hf
    rw [List.perm_nil.mp hf.symm]
  | cons a tl =>
    rw [hfl] at hf hc
    have htl : tl = [] := by
      cases tl with
      | nil => rfl
      | cons b tb => simp at hc
    subst htl
    rw [List.perm_singleton.mp hf.symm]

/-- C7: extraction is by key, not position: permuting the comma-separated
fields of the header (each of the keys `t=`, `v1=` occurring at most
once) does not change the verifier's result. -/
theorem C7_field_order_irrelevant (payload secret : List Char)
    (tol now : Int) (l l' : List (List Char))
    (hperm : List.Perm l l')
    (hfree : ∀ f ∈ l, ',' ∉ f)
    (ht : l.countP (fun p => jsStartsWith [ 't', '='] p) ≤ 1)
    (hv : l.countP (fun p => jsStartsWith [ 'v', '1', '='] p) ≤ 1) :
    verifyWebhookSignature payload (joinComma l) secret tol now =
      verifyWebhookSignature payload (joinComma l') secret tol now := by
  rcases eq_or_ne l [] with rfl | hne
  · rw [hperm.symm.eq_nil]
  · have hne' : l' ≠ [] := by
      intro e
      subst e
      exact hne hperm.eq_nil
    have hfree' : ∀ f ∈ l', ',' ∉ f := fun f hf =>
      hfree f (hperm.mem_iff.mpr hf)
    simp only [verifyWebhookSignature]
    rw [splitComma_joinComma l hne hfree,
      splitComma_joinComma l' hne' hfree',
      find?_perm_of_countP_le_one _ hperm ht,
      find?_perm_of_countP_le_one _ hperm hv]

theorem C7_field_order_irrelevant_witness :
    List.Perm [[ 't', '=', '5'], [ 'v', '1', '=', 'a']]
        [[ 'v', '1', '=', 'a'], [ 't', '=', '5']] ∧
      (∀ f ∈ [[ 't', '=', '5'], [ 'v', '1', '=', 'a']], ',' ∉ f) ∧
      ([[ 't', '=', '5'], [ 'v', '1', '=', 'a']].countP
        (fun p => jsStartsWith [ 't', '='] p) ≤ 1) ∧
      ([[ 't', '=', '5'], [ 'v', '1', '=', 'a']].countP
        (fun p => jsStartsWith [ 'v', '1', '='] p) ≤ 1) ∧
      verifyWebhookSignature [ 'p']
          (joinComma [[ 't', '=', '5'], [ 'v', '1', '=', 'a']]) [ 's'] 300
          5 =
        verifyWebhookSignature [ 'p']
          (joinComma [[ 'v', '1', '=', 'a'], [ 't', '=', '5']]) [ 's'] 300
          5 :=
  ⟨by decide, by decide, by decide, by decide,
   C7_field_order_irrelevant [ 'p'] [ 's'] 300 5 _ _ (by decide)
     (by decide) (by decide) (by decide)⟩

/-- On a header whose comma-free fields decompose as `l1 ++ ft :: l2`
with `ft` the first field starting with `t=` (no field of `l1` does), and
as `m1 ++ fv :: m2` with `fv` the first field starting with `v1=`, the
verifier's result is determined by `ft` and `fv` alone: the window check
parses the text of `ft`, the digest is the HMAC over that same raw text,
and the comparison uses the text of `fv`.  Every other field — including
further `t=` or `v1=` duplicates anywhere in `l2` or `m2` — is absent
from the right-hand side. -/
theorem verify_first_fields (payload secret : List Char) (tol now : Int)
    (l l1 l2 m1 m2 : List (List Char)) (ft fv : List Char)
    (hfree : ∀ f ∈ l, ',' ∉ f)
    (hdt : l = l1 ++ ft :: l2)
    (hdv : l = m1 ++ fv :: m2)
    (hft : jsStartsWith [ 't', '='] ft = true)
    (hfv : jsStartsWith [ 'v', '1', '='] fv = true)
    (hnt : ∀ f ∈ l1, jsStartsWith [ 't', '='] f = false)
    (hnv : ∀ f ∈ m1, jsStartsWith [ 'v', '1', '='] f = false) :
    verifyWebhookSignature payload (joinComma l) secret tol now =
      if List.drop 2 ft = [] ∨ List.drop 3 fv = [] then Except.ok false
      else
        if (match parseIntB10 (List.drop 2 ft) with
            | some ts => decide (tol < ((now - ts).natAbs : Int))
            | none => false) then Except.ok false
        else
          timingSafeEqual (utf8Encode (List.drop 3 fv))
            (utf8Encode (hmacSha256Hex secret
              (List.drop 2 ft ++ '.' :: payload))) := by
  have hne : l ≠ [] := by rw [hdt]; simp
  have hsplit := splitComma_joinComma l hne hfree
  have hfind_t : List.find? (fun p => jsStartsWith [ 't', '='] p) l =
      some ft := by
    rw [hdt, List.find?_append,
      List.find?_eq_none.mpr (fun x hx => by simp [hnt x hx]),
      Option.none_or, List.find?_cons_of_pos _ hft]
  have hfind_v : List.find? (fun p => jsStartsWith [ 'v', '1', '='] p) l =
      some fv := by
    rw [hdv, List.find?_append,
      List.find?_eq_none.mpr (fun x hx => by simp [hnv x hx]),
      Option.none_or, List.find?_cons_of_pos _ hfv]
  simp only [verifyWebhookSignature, hsplit, hfind_t, hfind_v,
    Option.map_some']

/-- C10: when the header contains several fields beginning with `t=` (or
several beginning with `v1=`), the verifier uses the first such field in
left-to-right order — its raw text feeds both the window check and the
digest computation in the `t=` case, the comparison in the `v1=` case —
and ignores the later duplicates, wherever they sit: the result is a
function of the first `t=` field and the first `v1=` field alone, and
appending any further fields (duplicates included) leaves it unchanged. -/
theorem C10_first_duplicate_wins (payload secret : List Char)
    (tol now : Int) (l l1 l2 m1 m2 gs : List (List Char))
    (ft fv : List Char)
    (hfree : ∀ f ∈ l, ',' ∉ f)
    (hdt : l = l1 ++ ft :: l2)
    (hdv : l = m1 ++ fv :: m2)
    (hft : jsStartsWith [ 't', '='] ft = true)
    (hfv : jsStartsWith [ 'v', '1', '='] fv = true)
    (hnt : ∀ f ∈ l1, jsStartsWith [ 't', '='] f = false)
    (hnv : ∀ f ∈ m1, jsStartsWith [ 'v', '1', '='] f = false)
    (hgs : ∀ f ∈ gs, ',' ∉ f) :
    (verifyWebhookSignature payload (joinComma l) secret tol now =
      if List.drop 2 ft = [] ∨ List.drop 3 fv = [] then Except.ok false
      else
        if (match parseIntB10 (List.drop 2 ft) with
            | some ts => decide (tol < ((now - ts).natAbs : Int))
            | none => false) then Except.ok false
        else
          timingSafeEqual (utf8Encode (List.drop 3 fv))
            (utf8Encode (hmacSha256Hex secret
              (List.drop 2 ft ++ '.' :: payload)))) ∧
    verifyWebhookSignature payload (joinComma (l ++ gs)) secret tol now =
      verifyWebhookSignature payload (joinComma l) secret tol now := by
  have h1 := verify_first_fields payload secret tol now l l1 l2 m1 m2 ft
    fv hfree hdt hdv hft hfv hnt hnv
  have hfree2 : ∀ f ∈ l ++ gs, ',' ∉ f := by
    intro f hf
    rcases List.mem_append.mp hf with h | h
    · exact hfree f h
    · exact hgs f h
  have h2 := verify_first_fields payload secret tol now (l ++ gs) l1
    (l2 ++ gs) m1 (m2 ++ gs) ft fv hfree2
    (by rw [hdt, List.append_assoc]; rfl)
    (by rw [hdv, List.append_assoc]; rfl)
    hft hfv hnt hnv
  exact ⟨h1, h2.trans h1.symm⟩

theorem C10_first_duplicate_wins_witness :
    (∀ f ∈ ([[ 't', '=', '1'], [ 't', '=', '2'], [ 'v', '1', '=', 'a']] :
        List (List Char)), ',' ∉ f) ∧
    ([[ 't', '=', '1'], [ 't', '=', '2'], [ 'v', '1', '=', 'a']] :
        List (List Char)) =
      [] ++ [ 't', '=', '1'] :: [[ 't', '=', '2'],
        [ 'v', '1', '=', 'a']] ∧
    ([[ 't', '=', '1'], [ 't', '=', '2'], [ 'v', '1', '=', 'a']] :
        List (List Char)) =
      [[ 't', '=', '1'], [ 't', '=', '2']] ++ [ 'v', '1', '=', 'a'] ::
        [] ∧
    jsStartsWith [ 't', '='] [ 't', '=', '1'] = true ∧
    jsStartsWith [ 'v', '1', '='] [ 'v', '1', '=', 'a'] = true ∧
    (∀ f ∈ ([] : List (List Char)),
      jsStartsWith [ 't', '='] f = false) ∧
    (∀ f ∈ ([[ 't', '=', '1'], [ 't', '=', '2']] : List (List Char)),
      jsStartsWith [ 'v', '1', '='] f = false) ∧
    (∀ f ∈ ([[ 'v', '1', '=', 'b']] : List (List Char)), ',' ∉ f) ∧
    ((verifyWebhookSignature [ 'p']
        (joinComma [[ 't', '=', '1'], [ 't', '=', '2'],
          [ 'v', '1', '=', 'a']]) [ 's'] 300 1 =
      if List.drop 2 [ 't', '=', '1'] = [] ∨
          List.drop 3 [ 'v', '1', '=', 'a'] = [] then Except.ok false
      else
        if (match parseIntB10 (List.drop 2 [ 't', '=', '1']) with
            | some ts => decide ((300 : Int) <
                (((1 : Int) - ts).natAbs : Int))
            | none => false) then Except.ok false
        else
          timingSafeEqual (utf8Encode (List.drop 3 [ 'v', '1', '=', 'a']))
            (utf8Encode (hmacSha256Hex [ 's']
              (List.drop 2 [ 't', '=', '1'] ++ '.' :: [ 'p'])))) ∧
      verifyWebhookSignature [ 'p']
          (joinComma ([[ 't', '=', '1'], [ 't', '=', '2'],
            [ 'v', '1', '=', 'a']] ++ [[ 'v', '1', '=', 'b']])) [ 's']
          300 1 =
        verifyWebhookSignature [ 'p']
          (joinComma [[ 't', '=', '1'], [ 't', '=', '2'],
            [ 'v', '1', '=', 'a']]) [ 's'] 300 1) :=
  ⟨by decide, by decide, by decide, by decide, by decide, by decide,
   by decide, by decide,
   C10_first_duplicate_wins [ 'p'] [ 's'] 300 1
     [[ 't', '=', '1'], [ 't', '=', '2'], [ 'v', '1', '=', 'a']] []
     [[ 't', '=', '2'], [ 'v', '1', '=', 'a']]
     [[ 't', '=', '1'], [ 't', '=', '2']] [] [[ 'v', '1', '=', 'b']]
     [ 't', '=', '1'] [ 'v', '1', '=', 'a'] (by decide) (by decide)
     (by decide) (by decide) (by decide) (by decide) (by decide)
     (by decide)⟩
